import Mathlib

/-!
Shallow embedding of the score-inference pipeline of
`src/intelligent_darts/backend/score_detection_service.py` and the
confidence computation of `src/intelligent_darts/backend/router.py`.

Python strings are modelled as `String`/`List Char`; a Python value that
may be `None` is an `Option`; a Python function that may raise is an
`Except PyExc`.
-/

namespace Darts

/-- The exception classes raised by the embedded code paths.  All raises in
`detect_score` use the class `ValueError`; `TypeError` models the interpreter
error from an unsupported comparison; `AttributeError` models calling a
method on `None`. -/
inductive PyExc where
  | valueError (msg : String)
  | typeError (msg : String)
  | attributeError (msg : String)
deriving DecidableEq

/-- The exception class name, as a Python caller would see it in `type(e)`. -/
def excClass : PyExc → String
  | .valueError _ => "ValueError"
  | .typeError _ => "TypeError"
  | .attributeError _ => "AttributeError"

/-- The exception class of a fallible result, when it failed. -/
def errClassOf : Except PyExc String → Option String
  | .error e => some (excClass e)
  | .ok _ => none

/-- Characters removed by Python `str.strip()` (the ASCII whitespace set:
space, tab, newline, carriage return, vertical tab, form feed). -/
def pyIsSpace (c : Char) : Bool :=
  c = ' ' || c = '\t' || c = '\n' || c = '\r' || c = '\x0b' || c = '\x0c'

/-- Python `str.strip()` on the character list of a string. -/
def pyStripL (l : List Char) : List Char :=
  ((l.dropWhile pyIsSpace).reverse.dropWhile pyIsSpace).reverse

/-- Python `str.lower()`; the texts involved are ASCII, where it agrees with
`Char.toLower`. -/
def pyLower (l : List Char) : List Char := l.map Char.toLower

/-- Accumulator pass behind `digitRuns`: walk the text once, `acc` holding the
(reversed) run of digits currently being read. -/
def runsAux : List Char → List Char → List (List Char)
  | [], acc => if acc = [] then [] else [acc.reverse]
  | c :: cs, acc =>
    if c.isDigit then runsAux cs (c :: acc)
    else if acc = [] then runsAux cs []
    else acc.reverse :: runsAux cs []

/-- Python `re.findall` with a digits pattern: the maximal runs of decimal
digits of the text, left to right. -/
def digitRuns (l : List Char) : List (List Char) := runsAux l []

/-- Python `int()` on a run of decimal digits. -/
def digitsVal (l : List Char) : Nat :=
  l.foldl (fun a c => 10 * a + (c.toNat - 48)) 0

/-- The phrases checked by `_parse_scores` before numeric extraction. -/
def noDartPhrases : List (List Char) :=
  ["no dart".data, "no visible dart".data, "empty".data, "none".data]

/-- Python `any(phrase in text for phrase in [...])`: substring containment
of one of the phrases. -/
def hasNoDartPhrase (l : List Char) : Bool :=
  noDartPhrases.any (fun p => decide (p <:+: l))

/-- Body of `_parse_scores` after `response.strip()` has produced `cleaned`:
the no-dart phrase check, then digit extraction with the 0..60 range filter,
returning `[]` when nothing usable survives. -/
def parseAfterStrip (cleaned : List Char) : List Int :=
  if hasNoDartPhrase (pyLower cleaned) then [0]
  else
    let numbers := digitRuns cleaned
    if numbers ≠ [] then
      let scores := (numbers.map (fun ds => (digitsVal ds : Int))).filter
        (fun score => decide (0 ≤ score ∧ score ≤ 60))
      if scores ≠ [] then scores else []
    else []

/-- The try-block of `_parse_scores`.  The argument is the Python value passed
in, which the retry path may make `None`; on `None` the first statement
`response.strip()` raises `AttributeError`, and nothing else in the body can
raise on a string input. -/
def parseScoresBody (response : Option String) : Except PyExc (List Int) :=
  match response with
  | none => .error (.attributeError "NoneType object has no attribute strip")
  | some s => .ok (parseAfterStrip (pyStripL s.data))

/-- `_parse_scores`: the try-block with its catch-all `except` that converts
any exception into the empty list. -/
def parseScores (response : Option String) : List Int :=
  match parseScoresBody response with
  | .ok v => v
  | .error _ => []

/-! ### Response extraction (`detect_score`, lines 157-191) -/

/-- The fields of `choice.message` that the extractor reads.  `content` and
`refusal` may each be `None`. -/
structure Message where
  content : Option String
  refusal : Option String
deriving DecidableEq

/-- One entry of `response.choices`.  `finish_reason` is `none` when the
attribute is absent or `None`; `message`/`text` are `none` when `hasattr` is
false, and `text` additionally carries an `Option` for a present-but-`None`
value. -/
structure Choice where
  finish_reason : Option String
  message : Option Message
  text : Option (Option String)
deriving DecidableEq

/-- The model reply shape read by the extractor. -/
structure Reply where
  choices : List Choice
deriving DecidableEq

/-- Python `x or ""` on an optional string. -/
def pyOrEmpty (o : Option String) : String := o.getD ""

/-- Python truthiness of an optional string. -/
def truthyStr : Option String → Bool
  | some s => s ≠ ""
  | none => false

/-- Message text of the blocked-response raise. -/
def blockedMsg (fr : String) : String :=
  "Model response blocked by " ++ fr ++
    ". The image may have been flagged by safety filters."

/-- Message text of the empty-response raise. -/
def emptyMsg (endpoint : String) : String :=
  "Model " ++ endpoint ++
    " returned empty response. This may indicate a compatibility issue or safety filter."

/-- The final emptiness check of the extractor:
`if not raw_response or raw_response.strip() == "": raise ValueError(...)`. -/
def blankCheck (endpoint : String) (raw : String) : Except PyExc String :=
  if raw = "" || pyStripL raw.data = [] then .error (.valueError (emptyMsg endpoint))
  else .ok raw

/-- The extractor branches after the finish-reason check: message body with
refusal check, else legacy flat text field, else empty. -/
def extractAfterFinish (endpoint : String) (choice : Choice) : Except PyExc String :=
  match choice.message with
  | some m =>
    let raw := pyOrEmpty m.content
    if raw = "" && truthyStr m.refusal then
      .error (.valueError ("Model refused: " ++ pyOrEmpty m.refusal))
    else blankCheck endpoint raw
  | none =>
    match choice.text with
    | some t => blankCheck endpoint (pyOrEmpty t)
    | none => blankCheck endpoint ""

/-- Response extraction of `detect_score`: inspect choice 0, raise on a
content-safety finish reason, on a refusal with empty body, and on
empty/blank extracted text. -/
def extractText (endpoint : String) (r : Reply) : Except PyExc String :=
  match r.choices with
  | [] => blankCheck endpoint ""
  | choice :: _ =>
    match choice.finish_reason with
    | some fr =>
      if fr ≠ "" ∧ (fr = "content_filter" ∨ fr = "safety") then
        .error (.valueError (blockedMsg fr))
      else extractAfterFinish endpoint choice
    | none => extractAfterFinish endpoint choice

/-! ### Correction retry (`_retry_with_format_correction`) -/

/-- The retry extraction (lines 279-284): take `choices[0].message.content`
unguarded, else the flat `text` field, else keep the initial `""`.  No
finish-reason, refusal or emptiness check is performed. -/
def retryExtract (r : Reply) : Option String :=
  match r.choices with
  | [] => some ""
  | choice :: _ =>
    match choice.message with
    | some m => m.content
    | none =>
      match choice.text with
      | some t => t
      | none => some ""

/-- Python f-string interpolation of a possibly-`None` string. -/
def pyFStr : Option String → String
  | some s => s
  | none => "None"

/-- `_retry_with_format_correction` after its model call returned `r`: extract
without checks, re-parse, and return either the parsed scores or the empty
list, with a raw-response string combining both attempts. -/
def retryStep (r : Reply) (prev : String) : List Int × String :=
  let corrected := retryExtract r
  let scores := parseScores corrected
  if scores = [] then
    ([], "Original: " ++ prev ++ "\nCorrected attempt: " ++ pyFStr corrected)
  else
    (scores, "Original: " ++ prev ++ "\nCorrected: " ++ pyFStr corrected)

/-- `detect_score` from the point where the first reply text `raw` has been
extracted, with the retry call abstracted by the reply `retryReply` it would
receive: parse, on empty retry once, on a second empty result fall back to
`[0]`. -/
def detectAfterExtract (raw : String) (retryReply : Reply) : List Int × String :=
  let scores := parseScores (some raw)
  if scores = [] then
    let res := retryStep retryReply raw
    if res.1 = [] then ([(0 : Int)], res.2) else res
  else (scores, raw)

/-- The whole of `detect_score` after the first model call returned
`firstReply`: extraction (which may raise) followed by parse/retry/default. -/
def detectScoreCore (endpoint : String) (firstReply retryReply : Reply) :
    Except PyExc (List Int × String) :=
  match extractText endpoint firstReply with
  | .error e => .error e
  | .ok raw => .ok (detectAfterExtract raw retryReply)

/-! ### Router (`router.py`, `detect_score` endpoint) -/

/-- Python `list > int`: neither operand supports the comparison, so the
interpreter raises `TypeError` (CPython message: comparison not supported
between instances of list and int). -/
def pyListGtInt (_xs : List Int) (_n : Int) : Except PyExc Bool :=
  .error (.typeError "unsupported comparison between instances of list and int")

/-- The confidence computation of the router,
`confidence = 0.95 if score > 0 else 0.5`, where `score` is the list returned
by `ScoreDetectionService.detect_score`. -/
def routerConfidence (score : List Int) : Except PyExc Rat :=
  match pyListGtInt score 0 with
  | .error e => .error e
  | .ok gt => .ok (if gt then 19 / 20 else 1 / 2)

/-! ### Stringification, for the round-trip properties -/

/-- Decimal digits of a natural number, most significant first. -/
def natChars (n : Nat) : List Char :=
  if h : n < 10 then [Char.ofNat (48 + n)]
  else natChars (n / 10) ++ [Char.ofNat (48 + n % 10)]
decreasing_by exact Nat.div_lt_self (by omega) (by omega)

/-- Join character lists with a separator. -/
def joinChars (sep : List Char) : List (List Char) → List Char
  | [] => []
  | [x] => x
  | x :: y :: xs => x ++ sep ++ joinChars sep (y :: xs)

/-- The comma-separated stringification of a score sequence, as the model is
instructed to produce it. -/
def stringifyScores (xs : List Int) : List Char :=
  joinChars ", ".data (xs.map (fun x => natChars x.toNat))

/-! ### Character facts -/

lemma space_cases {c : Char} (h : pyIsSpace c = true) :
    c = ' ' ∨ c = '\t' ∨ c = '\n' ∨ c = '\r' ∨ c = '\x0b' ∨ c = '\x0c' := by
  have h' := h
  simp only [pyIsSpace, Bool.or_eq_true, decide_eq_true_eq] at h'
  tauto

lemma space_not_digit {c : Char} (h : pyIsSpace c = true) : c.isDigit = false := by
  rcases space_cases h with rfl | rfl | rfl | rfl | rfl | rfl <;> decide

lemma space_toLower {c : Char} (h : pyIsSpace c = true) : c.toLower = c := by
  rcases space_cases h with rfl | rfl | rfl | rfl | rfl | rfl <;> decide

lemma digitChar_facts : ∀ m, m < 10 →
    (Char.ofNat (48 + m)).isDigit = true ∧
    (Char.ofNat (48 + m)).toNat = 48 + m ∧
    (Char.ofNat (48 + m)).toLower = Char.ofNat (48 + m) ∧
    Char.ofNat (48 + m) ≠ 'n' ∧ Char.ofNat (48 + m) ≠ 'e' ∧
    pyIsSpace (Char.ofNat (48 + m)) = false := by decide

/-! ### Digit-run lemmas -/

lemma runsAux_cons_digit {c : Char} (hc : c.isDigit = true) (cs acc : List Char) :
    runsAux (c :: cs) acc = runsAux cs (c :: acc) := by
  simp [runsAux, hc]

lemma runsAux_cons_nondigit_nil {c : Char} (hc : c.isDigit = false) (cs : List Char) :
    runsAux (c :: cs) [] = runsAux cs [] := by
  simp [runsAux, hc]

lemma runsAux_cons_nondigit {c : Char} (hc : c.isDigit = false) (cs acc : List Char)
    (ha : acc ≠ []) :
    runsAux (c :: cs) acc = acc.reverse :: runsAux cs [] := by
  simp [runsAux, hc, ha]

lemma runsAux_append_digits {d : List Char} (hd : ∀ c ∈ d, c.isDigit = true) :
    ∀ (l acc : List Char), runsAux (d ++ l) acc = runsAux l (d.reverse ++ acc) := by
  induction d with
  | nil => intro l acc; simp
  | cons c cs ih =>
    intro l acc
    rw [List.cons_append, runsAux_cons_digit (hd c (by simp)),
      ih (fun x hx => hd x (by simp [hx]))]
    simp

lemma runsAux_snoc_nondigit {w : Char} (hw : w.isDigit = false) :
    ∀ (l acc : List Char), runsAux (l ++ [w]) acc = runsAux l acc := by
  intro l
  induction l with
  | nil =>
    intro acc
    by_cases ha : acc = [] <;> simp [runsAux, hw, ha]
  | cons c cs ih =>
    intro acc
    by_cases hc : c.isDigit
    · rw [List.cons_append, runsAux_cons_digit hc, runsAux_cons_digit hc, ih]
    · by_cases ha : acc = []
      · subst ha
        rw [List.cons_append, runsAux_cons_nondigit_nil (Bool.eq_false_iff.mpr hc),
          runsAux_cons_nondigit_nil (Bool.eq_false_iff.mpr hc), ih]
      · rw [List.cons_append, runsAux_cons_nondigit (Bool.eq_false_iff.mpr hc) _ _ ha,
          runsAux_cons_nondigit (Bool.eq_false_iff.mpr hc) _ _ ha, ih]

lemma runsAux_append_nondigits {w : List Char} (hw : ∀ c ∈ w, c.isDigit = false) :
    ∀ (l acc : List Char), runsAux (l ++ w) acc = runsAux l acc := by
  induction w with
  | nil => simp
  | cons x xs ih =>
    intro l acc
    have h1 : l ++ x :: xs = (l ++ [x]) ++ xs := by simp
    rw [h1, ih (fun c hc => hw c (by simp [hc])),
      runsAux_snoc_nondigit (hw x (by simp))]

lemma runsAux_dropleading {w : List Char} (hw : ∀ c ∈ w, c.isDigit = false) (l : List Char) :
    runsAux (w ++ l) [] = runsAux l [] := by
  induction w with
  | nil => simp
  | cons x xs ih =>
    rw [List.cons_append, runsAux_cons_nondigit_nil (hw x (by simp)),
      ih (fun c hc => hw c (by simp [hc]))]

lemma digitRuns_eq_nil {l : List Char} (h : ∀ c ∈ l, c.isDigit = false) :
    digitRuns l = [] := by
  have h1 : l = l ++ [] := by simp
  rw [digitRuns, h1, runsAux_dropleading h]
  rfl

/-- Stripping the surrounding whitespace does not change the digit runs. -/
lemma digitRuns_pyStripL (l : List Char) : digitRuns (pyStripL l) = digitRuns l := by
  unfold digitRuns pyStripL
  have hws₁ : ∀ c ∈ l.takeWhile pyIsSpace, c.isDigit = false := fun c hc =>
    space_not_digit (List.mem_takeWhile_imp hc)
  have hdec₁ : l = l.takeWhile pyIsSpace ++ l.dropWhile pyIsSpace :=
    (List.takeWhile_append_dropWhile (p := pyIsSpace) (l := l)).symm
  set m := l.dropWhile pyIsSpace with hm
  have hdec₂ : m = (m.reverse.dropWhile pyIsSpace).reverse ++
      (m.reverse.takeWhile pyIsSpace).reverse := by
    have : m.reverse = m.reverse.takeWhile pyIsSpace ++ m.reverse.dropWhile pyIsSpace :=
      (List.takeWhile_append_dropWhile (p := pyIsSpace) (l := m.reverse)).symm
    calc m = m.reverse.reverse := by simp
    _ = (m.reverse.takeWhile pyIsSpace ++ m.reverse.dropWhile pyIsSpace).reverse := by
        rw [← this]
    _ = _ := by rw [List.reverse_append]
  have hws₂ : ∀ c ∈ (m.reverse.takeWhile pyIsSpace).reverse, c.isDigit = false := by
    intro c hc
    rw [List.mem_reverse] at hc
    exact space_not_digit (List.mem_takeWhile_imp hc)
  conv_rhs => rw [hdec₁, runsAux_dropleading hws₁, hdec₂,
    runsAux_append_nondigits hws₂]

/-! ### Substring (phrase) lemmas -/

lemma bool_eq_of_iff {a b : Bool} (h : a = true ↔ b = true) : a = b := by
  cases a <;> cases b <;> simp_all

lemma infix_reverse_of {l₁ l₂ : List Char} (h : l₁ <:+: l₂) :
    l₁.reverse <:+: l₂.reverse := by
  obtain ⟨s, t, hst⟩ := h
  refine ⟨t.reverse, s.reverse, ?_⟩
  rw [← hst]
  simp [List.reverse_append]

lemma infix_of_reverse {l₁ l₂ : List Char} (h : l₁.reverse <:+: l₂.reverse) :
    l₁ <:+: l₂ := by
  have h1 := infix_reverse_of h
  simpa using h1

lemma infix_drop_leading {p : List Char}
    (hhead : ∀ c, p.head? = some c → pyIsSpace c = false) :
    ∀ {w l : List Char}, (∀ c ∈ w, pyIsSpace c = true) → p <:+: w ++ l → p <:+: l := by
  intro w
  induction w with
  | nil => intro l _ h; simpa using h
  | cons x xs ih =>
    intro l hw h
    rw [List.cons_append] at h
    rcases List.infix_cons_iff.mp h with hpre | hinf
    · cases p with
      | nil => exact List.nil_infix
      | cons c cs =>
        rw [List.cons_prefix_cons] at hpre
        have h1 : pyIsSpace c = false := hhead c rfl
        have h2 : pyIsSpace x = true := hw x (by simp)
        rw [hpre.1] at h1
        rw [h1] at h2
        exact Bool.noConfusion h2
    · exact ih (fun c hc => hw c (by simp [hc])) hinf

lemma infix_drop_trailing {p l w : List Char}
    (hlast : ∀ c, p.getLast? = some c → pyIsSpace c = false)
    (hw : ∀ c ∈ w, pyIsSpace c = true)
    (h : p <:+: l ++ w) : p <:+: l := by
  apply infix_of_reverse
  have h1 := infix_reverse_of h
  rw [List.reverse_append] at h1
  refine infix_drop_leading ?_ (fun c hc => hw c (List.mem_reverse.mp hc)) h1
  intro c hc
  rw [List.head?_reverse] at hc
  exact hlast c hc

/-- The leading-whitespace / core decomposition used by `str.strip`. -/
lemma strip_decomp₁ (l : List Char) :
    l = l.takeWhile pyIsSpace ++ l.dropWhile pyIsSpace :=
  (List.takeWhile_append_dropWhile (p := pyIsSpace) (l := l)).symm

/-- The core / trailing-whitespace decomposition used by `str.strip`. -/
lemma strip_decomp₂ (m : List Char) :
    m = (m.reverse.dropWhile pyIsSpace).reverse ++
      (m.reverse.takeWhile pyIsSpace).reverse := by
  have h : m.reverse = m.reverse.takeWhile pyIsSpace ++ m.reverse.dropWhile pyIsSpace :=
    (List.takeWhile_append_dropWhile (p := pyIsSpace) (l := m.reverse)).symm
  calc m = m.reverse.reverse := by simp
  _ = (m.reverse.takeWhile pyIsSpace ++ m.reverse.dropWhile pyIsSpace).reverse := by
      rw [← h]
  _ = _ := by rw [List.reverse_append]

lemma pyStripL_within (l : List Char) : pyStripL l <:+: l := by
  have h1 : pyStripL l <+: l.dropWhile pyIsSpace := by
    refine ⟨((l.dropWhile pyIsSpace).reverse.takeWhile pyIsSpace).reverse, ?_⟩
    exact (strip_decomp₂ (l.dropWhile pyIsSpace)).symm
  exact h1.isInfix.trans (List.dropWhile_suffix pyIsSpace).isInfix

lemma map_toLower_space_all {w : List Char} (hw : ∀ c ∈ w, pyIsSpace c = true) :
    ∀ c ∈ w.map Char.toLower, pyIsSpace c = true := by
  intro c hc
  rw [List.mem_map] at hc
  obtain ⟨c₀, hc₀, rfl⟩ := hc
  rw [space_toLower (hw c₀ hc₀)]
  exact hw c₀ hc₀

/-- Hard direction of the phrase-check bridge: an occurrence of a
whitespace-free-ended phrase in the lowered raw text survives stripping. -/
lemma infix_lower_strip {p l : List Char}
    (hhead : ∀ c, p.head? = some c → pyIsSpace c = false)
    (hlast : ∀ c, p.getLast? = some c → pyIsSpace c = false)
    (h : p <:+: pyLower l) : p <:+: pyLower (pyStripL l) := by
  unfold pyLower pyStripL
  unfold pyLower at h
  have h1 : p <:+: (l.takeWhile pyIsSpace).map Char.toLower ++
      (l.dropWhile pyIsSpace).map Char.toLower := by
    rw [← List.map_append, ← strip_decomp₁]
    exact h
  have h2 := infix_drop_leading hhead
    (map_toLower_space_all fun c hc => List.mem_takeWhile_imp hc) h1
  set m := l.dropWhile pyIsSpace with hm
  have h3 : p <:+: ((m.reverse.dropWhile pyIsSpace).reverse).map Char.toLower ++
      ((m.reverse.takeWhile pyIsSpace).reverse).map Char.toLower := by
    rw [← List.map_append, ← strip_decomp₂]
    exact h2
  refine infix_drop_trailing hlast (map_toLower_space_all ?_) h3
  intro c hc
  exact List.mem_takeWhile_imp (List.mem_reverse.mp hc)

lemma lower_strip_infix_lower (l : List Char) :
    pyLower (pyStripL l) <:+: pyLower l := by
  unfold pyLower
  exact (pyStripL_within l).map Char.toLower

lemma hasNoDartPhrase_iff {x : List Char} :
    hasNoDartPhrase x = true ↔ ∃ p ∈ noDartPhrases, p <:+: x := by
  simp [hasNoDartPhrase, List.any_eq_true]

/-- Each no-dart phrase begins and ends with a non-whitespace character. -/
lemma phrase_ends : ∀ p ∈ noDartPhrases,
    (p.head?.all fun c => !pyIsSpace c) = true ∧
    (p.getLast?.all fun c => !pyIsSpace c) = true := by decide

/-- The phrase check of `_parse_scores` gives the same answer on the raw text
as on the stripped text it actually inspects. -/
lemma hasPhrase_strip (l : List Char) :
    hasNoDartPhrase (pyLower (pyStripL l)) = hasNoDartPhrase (pyLower l) := by
  apply bool_eq_of_iff
  rw [hasNoDartPhrase_iff, hasNoDartPhrase_iff]
  constructor
  · rintro ⟨p, hp, hinf⟩
    exact ⟨p, hp, hinf.trans (lower_strip_infix_lower l)⟩
  · rintro ⟨p, hp, hinf⟩
    obtain ⟨hh, hl⟩ := phrase_ends p hp
    refine ⟨p, hp, infix_lower_strip ?_ ?_ hinf⟩
    · intro c hc
      rw [hc] at hh
      simpa using hh
    · intro c hc
      rw [hc] at hl
      simpa using hl

/-! ### Parser characterization -/

lemma parseScores_some (s : String) :
    parseScores (some s) = parseAfterStrip (pyStripL s.data) := rfl

lemma parseAfterStrip_phrase {cleaned : List Char}
    (h : hasNoDartPhrase (pyLower cleaned) = true) : parseAfterStrip cleaned = [0] := by
  unfold parseAfterStrip
  rw [h]
  rfl

lemma parseAfterStrip_no_phrase {cleaned : List Char}
    (h : hasNoDartPhrase (pyLower cleaned) = false) :
    parseAfterStrip cleaned =
      ((digitRuns cleaned).map (fun ds => (digitsVal ds : Int))).filter
        (fun score => decide (0 ≤ score ∧ score ≤ 60)) := by
  unfold parseAfterStrip
  rw [h]
  by_cases h1 : digitRuns cleaned = []
  · simp [h1]
  · by_cases h2 : ((digitRuns cleaned).map (fun ds => (digitsVal ds : Int))).filter
        (fun score => decide (0 ≤ score ∧ score ≤ 60)) = []
    · simp [h1, h2]
    · simp [h1, h2]

/-- `_parse_scores` on a text without a no-dart phrase: the in-range digit
tokens of the raw text, in order. -/
lemma parse_no_phrase_char {l : List Char}
    (h : hasNoDartPhrase (pyLower l) = false) :
    parseAfterStrip (pyStripL l) =
      ((digitRuns l).map (fun ds => (digitsVal ds : Int))).filter
        (fun score => decide (0 ≤ score ∧ score ≤ 60)) := by
  rw [parseAfterStrip_no_phrase (by rw [hasPhrase_strip]; exact h), digitRuns_pyStripL]

/-- `_parse_scores` on a text with a no-dart phrase: `[0]`. -/
lemma parse_phrase_char {l : List Char} (h : hasNoDartPhrase (pyLower l) = true) :
    parseAfterStrip (pyStripL l) = [0] :=
  parseAfterStrip_phrase (by rw [hasPhrase_strip]; exact h)

/-! ### Stringification lemmas -/

lemma natChars_mem (n : Nat) : ∀ c ∈ natChars n, ∃ m, m < 10 ∧ c = Char.ofNat (48 + m) := by
  induction n using Nat.strong_induction_on with
  | _ n ih =>
    rw [natChars]
    split
    next h =>
      intro c hc
      simp only [List.mem_singleton] at hc
      exact ⟨n, h, hc⟩
    next h =>
      intro c hc
      rw [List.mem_append] at hc
      rcases hc with hc | hc
      · exact ih (n / 10) (Nat.div_lt_self (by omega) (by omega)) c hc
      · simp only [List.mem_singleton] at hc
        exact ⟨n % 10, Nat.mod_lt _ (by omega), hc⟩

lemma natChars_all_digit (n : Nat) : ∀ c ∈ natChars n, c.isDigit = true := by
  intro c hc
  obtain ⟨m, hm, rfl⟩ := natChars_mem n c hc
  exact (digitChar_facts m hm).1

lemma natChars_ne_nil (n : Nat) : natChars n ≠ [] := by
  rw [natChars]
  split <;> simp

lemma digitsVal_append_char (l : List Char) (c : Char) :
    digitsVal (l ++ [c]) = 10 * digitsVal l + (c.toNat - 48) := by
  simp [digitsVal, List.foldl_append]

lemma digitsVal_natChars (n : Nat) : digitsVal (natChars n) = n := by
  induction n using Nat.strong_induction_on with
  | _ n ih =>
    rw [natChars]
    split
    next h =>
      have ht := (digitChar_facts n h).2.1
      simp only [digitsVal, List.foldl_cons, List.foldl_nil, ht]
      omega
    next h =>
      rw [digitsVal_append_char, ih (n / 10) (Nat.div_lt_self (by omega) (by omega)),
        (digitChar_facts (n % 10) (Nat.mod_lt _ (by omega))).2.1]
      omega

lemma digitRuns_all_digit {d : List Char} (hd : ∀ c ∈ d, c.isDigit = true)
    (hne : d ≠ []) : digitRuns d = [d] := by
  have h1 := runsAux_append_digits hd [] []
  simp only [List.append_nil] at h1
  rw [digitRuns, h1]
  simp [runsAux, List.reverse_eq_nil_iff, hne]

lemma digitRuns_stringify : ∀ (xs : List Int), xs ≠ [] →
    digitRuns (stringifyScores xs) = xs.map (fun x => natChars x.toNat) := by
  intro xs
  induction xs with
  | nil => intro h; exact absurd rfl h
  | cons x ys ih =>
    intro _
    cases ys with
    | nil =>
      show digitRuns (joinChars ", ".data [natChars x.toNat]) = [natChars x.toNat]
      exact digitRuns_all_digit (natChars_all_digit _) (natChars_ne_nil _)
    | cons y zs =>
      have hstep : stringifyScores (x :: y :: zs) =
          natChars x.toNat ++ (',' :: ' ' :: stringifyScores (y :: zs)) := by
        show joinChars ", ".data _ = _
        rw [List.map_cons, List.map_cons, joinChars]
        simp [stringifyScores]
      rw [hstep, digitRuns, runsAux_append_digits (natChars_all_digit _)]
      rw [List.append_nil, runsAux_cons_nondigit (by decide) _ _
        (by simp [List.reverse_eq_nil_iff, natChars_ne_nil]),
        runsAux_cons_nondigit_nil (by decide), List.reverse_reverse]
      have hrec : runsAux (stringifyScores (y :: zs)) [] =
          digitRuns (stringifyScores (y :: zs)) := rfl
      rw [hrec, ih (by simp)]
      simp

lemma stringify_chars : ∀ (xs : List Int), ∀ c ∈ stringifyScores xs,
    (∃ m, m < 10 ∧ c = Char.ofNat (48 + m)) ∨ c = ',' ∨ c = ' ' := by
  intro xs
  induction xs with
  | nil => intro c hc; exact absurd hc (by simp [stringifyScores, joinChars])
  | cons x ys ih =>
    cases ys with
    | nil =>
      intro c hc
      exact Or.inl (natChars_mem x.toNat c hc)
    | cons y zs =>
      have hstep : stringifyScores (x :: y :: zs) =
          natChars x.toNat ++ (',' :: ' ' :: stringifyScores (y :: zs)) := by
        show joinChars ", ".data _ = _
        rw [List.map_cons, List.map_cons, joinChars]
        simp [stringifyScores]
      intro c hc
      rw [hstep, List.mem_append] at hc
      rcases hc with hc | hc
      · exact Or.inl (natChars_mem x.toNat c hc)
      · rw [List.mem_cons] at hc
        rcases hc with rfl | hc
        · exact Or.inr (Or.inl rfl)
        · rw [List.mem_cons] at hc
          rcases hc with rfl | hc
          · exact Or.inr (Or.inr rfl)
          · exact ih c hc

/-- The stringification of a score sequence never matches a no-dart phrase:
its characters are digits, commas and spaces, and every phrase begins with a
letter. -/
lemma hasPhrase_stringify (xs : List Int) :
    hasNoDartPhrase (pyLower (stringifyScores xs)) = false := by
  cases hcase : hasNoDartPhrase (pyLower (stringifyScores xs)) with
  | false => rfl
  | true =>
    exfalso
    obtain ⟨p, hp, hinf⟩ := hasNoDartPhrase_iff.mp hcase
    have hhead : ∀ q ∈ noDartPhrases, q.head? = some 'n' ∨ q.head? = some 'e' := by decide
    have hmem : ∀ cL, p.head? = some cL → cL ∈ pyLower (stringifyScores xs) := by
      intro cL hcL
      cases p with
      | nil => exact absurd hcL (by simp)
      | cons a as =>
        simp only [List.head?_cons, Option.some.injEq] at hcL
        subst hcL
        exact hinf.subset (by simp)
    have hnot : ∀ cL ∈ pyLower (stringifyScores xs), cL ≠ 'n' ∧ cL ≠ 'e' := by
      intro cL hcL
      rw [pyLower, List.mem_map] at hcL
      obtain ⟨c₀, hc₀, rfl⟩ := hcL
      rcases stringify_chars xs c₀ hc₀ with ⟨m, hm, rfl⟩ | rfl | rfl
      · rw [(digitChar_facts m hm).2.2.1]
        exact ⟨(digitChar_facts m hm).2.2.2.1, (digitChar_facts m hm).2.2.2.2.1⟩
      · exact ⟨by decide, by decide⟩
      · exact ⟨by decide, by decide⟩
    rcases hhead p hp with hh | hh
    · exact (hnot 'n' (hmem 'n' hh)).1 rfl
    · exact (hnot 'e' (hmem 'e' hh)).2 rfl

/-- Round trip: parsing the comma-separated stringification of a non-empty
in-range score sequence reproduces the sequence. -/
lemma stringify_parse (xs : List Int) (hne : xs ≠ [])
    (hr : ∀ x ∈ xs, 0 ≤ x ∧ x ≤ 60) :
    parseAfterStrip (pyStripL (stringifyScores xs)) = xs := by
  rw [parse_no_phrase_char (hasPhrase_stringify xs), digitRuns_stringify xs hne,
    List.map_map]
  have hmap : xs.map ((fun ds => (digitsVal ds : Int)) ∘ fun x => natChars x.toNat)
      = xs := by
    conv_rhs => rw [← List.map_id xs]
    apply List.map_congr_left
    intro x hx
    simp only [Function.comp_apply, digitsVal_natChars, id_eq]
    exact Int.toNat_of_nonneg (hr x hx).1
  rw [hmap]
  apply List.filter_eq_self.mpr
  intro a ha
  rw [decide_eq_true_eq]
  exact hr a ha

/-! ### Claim theorems -/

/-- C6: for every input text without a no-dart phrase, the Score Parser
returns exactly the left-to-right sequence of maximal decimal-digit runs
whose values lie in [0, 60] (out-of-range tokens dropped silently, not
clamped, in-range tokens retained); consequently every element of the result
lies in [0, 60], and any text of the form "a, b, c" with a, b, c in [0, 60]
parses to [a, b, c] in order. -/
theorem parser_no_phrase_exact_tokens :
    (∀ s : String, hasNoDartPhrase (pyLower s.data) = false →
      parseScores (some s) =
        ((digitRuns s.data).map (fun ds => (digitsVal ds : Int))).filter
          (fun score => decide (0 ≤ score ∧ score ≤ 60))) ∧
    (∀ s : String, hasNoDartPhrase (pyLower s.data) = false →
      ∀ x ∈ parseScores (some s), 0 ≤ x ∧ x ≤ 60) ∧
    (∀ a b c : Int, 0 ≤ a ∧ a ≤ 60 → 0 ≤ b ∧ b ≤ 60 → 0 ≤ c ∧ c ≤ 60 →
      parseScores (some (String.mk (stringifyScores [a, b, c]))) = [a, b, c]) := by
  refine ⟨?_, ?_, ?_⟩
  · intro s h
    rw [parseScores_some]
    exact parse_no_phrase_char h
  · intro s h x hx
    rw [parseScores_some, parse_no_phrase_char h] at hx
    exact of_decide_eq_true (List.mem_filter.mp hx).2
  · intro a b c ha hb hc
    rw [parseScores_some]
    refine stringify_parse [a, b, c] (by simp) ?_
    intro x hx
    rcases List.mem_cons.mp hx with rfl | hx
    · exact ha
    rcases List.mem_cons.mp hx with rfl | hx
    · exact hb
    rcases List.mem_cons.mp hx with rfl | hx
    · exact hc
    · exact absurd hx (by simp)

theorem parser_no_phrase_exact_tokens_witness :
    hasNoDartPhrase (pyLower ("7, 99, 20").data) = false ∧
    parseScores (some "7, 99, 20") =
      ((digitRuns ("7, 99, 20").data).map (fun ds => (digitsVal ds : Int))).filter
        (fun score => decide (0 ≤ score ∧ score ≤ 60)) ∧
    parseScores (some (String.mk (stringifyScores [7, 20, 60]))) = [7, 20, 60] :=
  ⟨by decide, parser_no_phrase_exact_tokens.1 "7, 99, 20" (by decide),
    parser_no_phrase_exact_tokens.2.2 7 20 60 (by decide) (by decide) (by decide)⟩

/-- C7: every text containing a case-insensitive occurrence of one of the
no-dart phrases parses to exactly [0], regardless of any digits also present:
the phrase check precedes numeric extraction. -/
theorem parser_phrase_returns_zero (s : String)
    (h : hasNoDartPhrase (pyLower s.data) = true) :
    parseScores (some s) = [0] := by
  rw [parseScores_some]
  exact parse_phrase_char h

theorem parser_phrase_returns_zero_witness :
    hasNoDartPhrase (pyLower ("None detected, 20").data) = true ∧
    parseScores (some "None detected, 20") = [0] :=
  ⟨by decide, parser_phrase_returns_zero "None detected, 20" (by decide)⟩

/-- C8: a text with no decimal digits and no no-dart phrase parses to the
empty sequence, the parse-failed signal, not to [0]. -/
theorem parser_unusable_text_empty (s : String)
    (hd : ∀ c ∈ s.data, c.isDigit = false)
    (hp : hasNoDartPhrase (pyLower s.data) = false) :
    parseScores (some s) = [] := by
  rw [parseScores_some, parse_no_phrase_char hp, digitRuns_eq_nil hd]
  rfl

theorem parser_unusable_text_empty_witness :
    (∀ c ∈ ("garbage text").data, c.isDigit = false) ∧
    hasNoDartPhrase (pyLower ("garbage text").data) = false ∧
    parseScores (some "garbage text") = [] :=
  ⟨by decide, by decide,
    parser_unusable_text_empty "garbage text" (by decide) (by decide)⟩

/-- C9: parsing the comma-separated stringification of a non-empty sequence
of integers each in [0, 60] reproduces the same sequence. -/
theorem parser_roundtrip (xs : List Int) (hne : xs ≠ [])
    (hr : ∀ x ∈ xs, 0 ≤ x ∧ x ≤ 60) :
    parseScores (some (String.mk (stringifyScores xs))) = xs := by
  rw [parseScores_some]
  exact stringify_parse xs hne hr

theorem parser_roundtrip_witness :
    ([20, 60, 0] : List Int) ≠ [] ∧
    parseScores (some (String.mk (stringifyScores [20, 60, 0]))) = [20, 60, 0] :=
  ⟨by decide, parser_roundtrip [20, 60, 0] (by decide) (by decide)⟩

/-- C2 counterexample: on reply text "no darts visible" the pipeline returns
the one-element sequence [0] although the text contains zero digit tokens, so
the result has more entries than the digit tokens of the text and contains a
value that is not among them. -/
theorem pipeline_entry_bound_counterexample :
    (detectAfterExtract "no darts visible" ⟨[]⟩).1 = [0] ∧
    digitRuns ("no darts visible").data = [] := by
  exact ⟨by decide, by decide⟩

/-- C2 amended: outside the [0] special cases — that is, on any text without
a no-dart phrase — the parse result has at most as many entries as the digit
tokens of the text, and every returned value is the value of one of those
tokens. -/
theorem parse_result_from_digit_tokens (s : String)
    (hp : hasNoDartPhrase (pyLower s.data) = false) :
    (parseScores (some s)).length ≤ (digitRuns s.data).length ∧
    ∀ x ∈ parseScores (some s), ∃ ds ∈ digitRuns s.data, x = (digitsVal ds : Int) := by
  rw [parseScores_some, parse_no_phrase_char hp]
  constructor
  · calc (((digitRuns s.data).map (fun ds => (digitsVal ds : Int))).filter
        (fun score => decide (0 ≤ score ∧ score ≤ 60))).length
        ≤ ((digitRuns s.data).map (fun ds => (digitsVal ds : Int))).length :=
          List.length_filter_le _ _
    _ = (digitRuns s.data).length := List.length_map _ _
  · intro x hx
    have hx' := (List.mem_filter.mp hx).1
    rw [List.mem_map] at hx'
    obtain ⟨ds, hds, rfl⟩ := hx'
    exact ⟨ds, hds, rfl⟩

theorem parse_result_from_digit_tokens_witness :
    hasNoDartPhrase (pyLower ("7, 99, 20").data) = false ∧
    (parseScores (some "7, 99, 20")).length ≤ (digitRuns ("7, 99, 20").data).length :=
  ⟨by decide, (parse_result_from_digit_tokens "7, 99, 20" (by decide)).1⟩

/-- C3: when the first parse of the extracted reply is empty, detect_score
performs the single correction retry; if the retry result also parses empty,
it returns [0] without raising, with a raw-response string concatenating the
original and the corrected attempt; in every such case the caller receives at
least one score entry. -/
theorem detect_retry_then_default (raw : String) (r : Reply)
    (h : parseScores (some raw) = []) :
    (parseScores (retryExtract r) = [] →
      detectAfterExtract raw r =
        ([0], "Original: " ++ raw ++ "\nCorrected attempt: " ++
          pyFStr (retryExtract r))) ∧
    (detectAfterExtract raw r).1 ≠ [] := by
  constructor
  · intro h2
    simp only [detectAfterExtract, retryStep, h, h2]
    simp
  · simp only [detectAfterExtract, retryStep, h]
    by_cases h2 : parseScores (retryExtract r) = [] <;> simp [h2]

theorem detect_retry_then_default_witness :
    parseScores (some "xyz") = [] ∧
    detectAfterExtract "xyz" ⟨[]⟩ =
      ([0], "Original: " ++ "xyz" ++ "\nCorrected attempt: " ++
        pyFStr (retryExtract ⟨[]⟩)) :=
  ⟨by decide, (detect_retry_then_default "xyz" ⟨[]⟩ (by decide)).1 (by decide)⟩

/-- C10: the Score Parser is total and never raises: a None input makes the
try-block raise AttributeError on the strip call and the catch-all except
converts it into the empty sequence; on any string input the body runs
without raising; and the retry step, which forwards a None message content
unguarded, still returns normally with the parse-failure pair. -/
theorem parser_total_never_raises :
    (parseScoresBody none =
      .error (.attributeError "NoneType object has no attribute strip")) ∧
    (parseScores none = []) ∧
    (∀ s : String, parseScoresBody (some s) = .ok (parseScores (some s))) ∧
    (∀ (prev : String) (fr rf : Option String) (tx : Option (Option String))
        (rest : List Choice),
      retryStep ⟨⟨fr, some ⟨none, rf⟩, tx⟩ :: rest⟩ prev =
        ([], "Original: " ++ prev ++ "\nCorrected attempt: None")) := by
  refine ⟨rfl, rfl, fun s => rfl, ?_⟩
  intro prev fr rf tx rest
  have hre : retryExtract ⟨⟨fr, some ⟨none, rf⟩, tx⟩ :: rest⟩ = none := rfl
  simp only [retryStep, hre]
  simp only [pyFStr, parseScores, parseScoresBody]
  rw [if_pos trivial, String.append_assoc]
  rfl

/-- C1 counterexample: the blocked, refused and empty-response failure
conditions of the extractor all raise the same exception class, ValueError;
the code does collapse them into one generic exception type, distinguishing
them only by message text. -/
theorem extractor_single_exception_class :
    errClassOf (extractText "m"
      ⟨[⟨some "content_filter", some ⟨some "20", none⟩, none⟩]⟩) =
        some "ValueError" ∧
    errClassOf (extractText "m"
      ⟨[⟨none, some ⟨none, some "cannot analyze this"⟩, none⟩]⟩) =
        some "ValueError" ∧
    errClassOf (extractText "m"
      ⟨[⟨none, some ⟨some "   ", none⟩, none⟩]⟩) =
        some "ValueError" :=
  ⟨rfl, rfl, rfl⟩

/-- C1 amended: the three failure conditions of the extractor are distinct
and carry the data the claim names — a content-safety finish reason on choice
0 fails with the blocked message carrying the finish-reason value, an
empty/absent body with a refusal present fails with the refusal text, and
empty or blank extracted text fails with the empty-response message — but all
three are raised as the single exception class ValueError, distinguished only
by message. -/
theorem extractor_failure_conditions (endpoint fr ref : String) (c : Choice)
    (rest : List Choice) (m : Message) :
    ((fr = "content_filter" ∨ fr = "safety") → c.finish_reason = some fr →
      extractText endpoint ⟨c :: rest⟩ = .error (.valueError (blockedMsg fr))) ∧
    (c.finish_reason = none → c.message = some m → pyOrEmpty m.content = "" →
      m.refusal = some ref → ref ≠ "" →
      extractText endpoint ⟨c :: rest⟩ =
        .error (.valueError ("Model refused: " ++ ref))) ∧
    (c.finish_reason = none → c.message = some m → m.refusal = none →
      pyStripL (pyOrEmpty m.content).data = [] →
      extractText endpoint ⟨c :: rest⟩ = .error (.valueError (emptyMsg endpoint))) := by
  refine ⟨?_, ?_, ?_⟩
  · intro hfr hc
    rcases hfr with rfl | rfl <;> simp [extractText, hc]
  · intro h1 h2 h3 h4 h5
    have h3' : m.content.getD "" = "" := h3
    simp [extractText, extractAfterFinish, h1, h2, h3', h4, truthyStr, h5, pyOrEmpty]
  · intro h1 h2 h3 h4
    simp [extractText, extractAfterFinish, h1, h2, h3, truthyStr, blankCheck, h4]

theorem extractor_failure_conditions_witness :
    extractText "m" ⟨[⟨some "safety", some ⟨some "20", none⟩, none⟩]⟩ =
      .error (.valueError (blockedMsg "safety")) ∧
    extractText "m" ⟨[⟨none, some ⟨none, some "no can do"⟩, none⟩]⟩ =
      .error (.valueError ("Model refused: " ++ "no can do")) ∧
    extractText "m" ⟨[⟨none, some ⟨some "  ", none⟩, none⟩]⟩ =
      .error (.valueError (emptyMsg "m")) :=
  ⟨(extractor_failure_conditions "m" "safety" ""
      ⟨some "safety", some ⟨some "20", none⟩, none⟩ [] ⟨some "20", none⟩).1
      (Or.inr rfl) rfl,
   (extractor_failure_conditions "m" "" "no can do"
      ⟨none, some ⟨none, some "no can do"⟩, none⟩ [] ⟨none, some "no can do"⟩).2.1
      rfl rfl (by decide) rfl (by decide),
   (extractor_failure_conditions "m" "" ""
      ⟨none, some ⟨some "  ", none⟩, none⟩ [] ⟨some "  ", none⟩).2.2
      rfl rfl rfl (by decide)⟩

/-- C5 counterexample: on a reply whose first choice carries a content-safety
finish reason, the primary extraction fails with the blocked ValueError while
the retry extraction performs no such check and returns the message text,
which then parses to [20]; the retry extraction step is not equivalent to the
primary extraction step. -/
theorem retry_extraction_not_equivalent :
    extractText "m" ⟨[⟨some "content_filter", some ⟨some "20", none⟩, none⟩]⟩ =
      .error (.valueError (blockedMsg "content_filter")) ∧
    retryExtract ⟨[⟨some "content_filter", some ⟨some "20", none⟩, none⟩]⟩ =
      some "20" ∧
    parseScores (retryExtract
      ⟨[⟨some "content_filter", some ⟨some "20", none⟩, none⟩]⟩) = [20] :=
  ⟨rfl, rfl, by decide⟩

/-- C5 amended: the retry extraction agrees with the primary extraction
wherever the primary succeeds, but it performs none of the blocked, refused
or empty checks and therefore never fails. -/
theorem retry_extract_agrees_on_success (endpoint : String) (r : Reply)
    (s : String) (h : extractText endpoint r = .ok s) : retryExtract r = some s := by
  obtain ⟨choices⟩ := r
  cases choices with
  | nil => simp [extractText, blankCheck] at h
  | cons c rest =>
    obtain ⟨cfr, cmsg, ctext⟩ := c
    have hh : extractAfterFinish endpoint ⟨cfr, cmsg, ctext⟩ = .ok s := by
      cases cfr with
      | none => exact h
      | some fr =>
        have h' : (if fr ≠ "" ∧ (fr = "content_filter" ∨ fr = "safety") then
            (Except.error (PyExc.valueError (blockedMsg fr)) : Except PyExc String)
          else extractAfterFinish endpoint ⟨some fr, cmsg, ctext⟩) = .ok s := h
        by_cases hb : fr ≠ "" ∧ (fr = "content_filter" ∨ fr = "safety")
        · rw [if_pos hb] at h'
          exact absurd h' (by simp)
        · rw [if_neg hb] at h'
          exact h'
    clear h
    cases cmsg with
    | some m =>
      obtain ⟨mc, mr⟩ := m
      cases mc with
      | none =>
        exfalso
        simp only [extractAfterFinish, pyOrEmpty, Option.getD_none] at hh
        split at hh
        · simp at hh
        · simp [blankCheck] at hh
      | some t =>
        simp only [extractAfterFinish, pyOrEmpty, Option.getD_some] at hh
        split at hh
        · simp at hh
        · simp only [blankCheck] at hh
          split at hh
          · simp at hh
          · have ht : t = s := by simpa using hh
            show some t = some s
            rw [ht]
    | none =>
      cases ctext with
      | none =>
        exfalso
        simp [extractAfterFinish, blankCheck] at hh
      | some t =>
        cases t with
        | none =>
          exfalso
          simp [extractAfterFinish, pyOrEmpty, blankCheck] at hh
        | some u =>
          simp only [extractAfterFinish, pyOrEmpty, Option.getD_some] at hh
          simp only [blankCheck] at hh
          split at hh
          · exact absurd hh (by simp)
          · have hu : u = s := by simpa using hh
            show some u = some s
            rw [hu]

theorem retry_extract_agrees_on_success_witness :
    extractText "m" ⟨[⟨none, some ⟨some "20, 40", none⟩, none⟩]⟩ = .ok "20, 40" ∧
    retryExtract ⟨[⟨none, some ⟨some "20, 40", none⟩, none⟩]⟩ = some "20, 40" :=
  ⟨rfl, retry_extract_agrees_on_success "m"
    ⟨[⟨none, some ⟨some "20, 40", none⟩, none⟩]⟩ "20, 40" rfl⟩

/-- C4: the router derives the confidence by evaluating `score > 0` where
`score` is the list returned by `ScoreDetectionService.detect_score`; Python
raises TypeError on every such comparison of a list with an int, so no
completed detection request ever reaches the described response construction
with an integer score and a 0.95-or-0.5 confidence. -/
theorem router_confidence_always_raises (score : List Int) :
    routerConfidence score =
      .error (.typeError "unsupported comparison between instances of list and int") :=
  rfl

end Darts
